import Mathlib

/-!
Verification of the DSSAT translator (pysims/translators/dssat46/jsons2dssatlong.py).

Python strings are modelled as lists of characters, JSON-style records
(the dicts and lists the translator manipulates) as the inductive type JVal,
and numpy doubles as exact rationals.  Functions that can raise a Python
exception are modelled as Option-valued, with none for the exception path.
-/

/-- Python strings, modelled as lists of characters. -/
abbrev PyStr := List Char

/-- JSON-like values manipulated by the translator: strings, lists, dicts.
Dicts are association lists in insertion order, as built by the program
(keys are inserted in a fixed deterministic order, so structural equality
of the representation coincides with Python dict equality on them). -/
inductive JVal where
  | str : PyStr → JVal
  | arr : List JVal → JVal
  | obj : List (PyStr × JVal) → JVal

mutual

def jvalDecEq : (a b : JVal) → Decidable (a = b)
  | .str a, .str b =>
    match decEq a b with
    | isTrue h => isTrue (h ▸ rfl)
    | isFalse h => isFalse fun he => h (JVal.noConfusion he id)
  | .arr a, .arr b =>
    match jlistDecEq a b with
    | isTrue h => isTrue (h ▸ rfl)
    | isFalse h => isFalse fun he => h (JVal.noConfusion he id)
  | .obj a, .obj b =>
    match jobjDecEq a b with
    | isTrue h => isTrue (h ▸ rfl)
    | isFalse h => isFalse fun he => h (JVal.noConfusion he id)
  | .str _, .arr _ => isFalse fun h => JVal.noConfusion h
  | .str _, .obj _ => isFalse fun h => JVal.noConfusion h
  | .arr _, .str _ => isFalse fun h => JVal.noConfusion h
  | .arr _, .obj _ => isFalse fun h => JVal.noConfusion h
  | .obj _, .str _ => isFalse fun h => JVal.noConfusion h
  | .obj _, .arr _ => isFalse fun h => JVal.noConfusion h

def jlistDecEq : (a b : List JVal) → Decidable (a = b)
  | [], [] => isTrue rfl
  | [], _ :: _ => isFalse fun h => List.noConfusion h
  | _ :: _, [] => isFalse fun h => List.noConfusion h
  | x :: xs, y :: ys =>
    match jvalDecEq x y, jlistDecEq xs ys with
    | isTrue h1, isTrue h2 => isTrue (by rw [h1, h2])
    | isFalse h1, _ => isFalse fun h => h1 (List.noConfusion h fun hh _ => hh)
    | isTrue _, isFalse h2 => isFalse fun h => h2 (List.noConfusion h fun _ ht => ht)

def jobjDecEq : (a b : List (PyStr × JVal)) → Decidable (a = b)
  | [], [] => isTrue rfl
  | [], _ :: _ => isFalse fun h => List.noConfusion h
  | _ :: _, [] => isFalse fun h => List.noConfusion h
  | (k1, v1) :: xs, (k2, v2) :: ys =>
    match decEq k1 k2, jvalDecEq v1 v2, jobjDecEq xs ys with
    | isTrue h1, isTrue h2, isTrue h3 => isTrue (by rw [h1, h2, h3])
    | isFalse h1, _, _ =>
      isFalse fun h => h1 (congrArg Prod.fst (List.noConfusion h fun hp _ => hp))
    | isTrue _, isFalse h2, _ =>
      isFalse fun h => h2 (congrArg Prod.snd (List.noConfusion h fun hp _ => hp))
    | isTrue _, isTrue _, isFalse h3 =>
      isFalse fun h => h3 (List.noConfusion h fun _ ht => ht)

end

instance : DecidableEq JVal := jvalDecEq

/-- Scan of the section table performed by the loop in
DSSATXFileOutput.__set_sec_data: 1-based index of the first entry deeply
equal to the record, if any. -/
def sec_scan (m : JVal) : List JVal → Option Nat
  | [] => none
  | a :: rest => if a = m then some 1 else (sec_scan m rest).map (· + 1)

/-- DSSATXFileOutput.__set_sec_data (lines 1004-1012): intern a record into a
section table.  The Python method mutates the table in place and returns
only the index; here it returns the pair (index, new table). -/
def set_sec_data (m : JVal) (arr : List JVal) : Nat × List JVal :=
  if m = JVal.obj [] ∨ m = JVal.arr [] then (0, arr)
  else
    match sec_scan m arr with
    | some j => (j, arr)
    | none => (arr.length + 1, arr ++ [m])

/-! ### Python string primitives used by the formatters -/

/-- Python str.rjust: pad with spaces on the left up to the width. -/
def pyRjust (w : Nat) (s : PyStr) : PyStr := List.replicate (w - s.length) ' ' ++ s

/-- Python str.ljust: pad with spaces on the right up to the width. -/
def pyLjust (w : Nat) (s : PyStr) : PyStr := s ++ List.replicate (w - s.length) ' '

/-- Left-pad with zero characters up to the width (no sign handling). -/
def padZeros (w : Nat) (s : PyStr) : PyStr := List.replicate (w - s.length) '0' ++ s

/-- Python str.zfill: pad with zeros on the left, keeping a leading sign in place. -/
def pyZfill (w : Nat) (s : PyStr) : PyStr :=
  if w ≤ s.length then s
  else
    match s with
    | c :: rest =>
      if c = '-' ∨ c = '+' then c :: (List.replicate (w - s.length) '0' ++ rest)
      else padZeros w s
    | [] => List.replicate w '0'

/-- Python str(n) for a nonnegative integer. -/
def natStr (n : Nat) : PyStr := (toString n).toList

/-- Numeric value of a digit string (0 on the empty string). -/
def digitsVal (s : PyStr) : Nat :=
  s.foldl (fun a c => a * 10 + (c.toNat - '0'.toNat)) 0

/-- Python int(s) restricted to plain digit strings: any other input raises. -/
def parseNat (s : PyStr) : Option Nat :=
  if s = [] ∨ ¬ s.all Char.isDigit then none else some (digitsVal s)

/-- Whitespace as stripped by Python str.strip. -/
def isPySpace (c : Char) : Bool := c = ' ' ∨ c = '\t' ∨ c = '\n' ∨ c = '\r'

/-- Python str.strip. -/
def pyStrip (s : PyStr) : PyStr :=
  ((s.dropWhile isPySpace).reverse.dropWhile isPySpace).reverse

/-! ### Gregorian calendar (datetime.date semantics) -/

/-- Gregorian leap-year rule used by datetime.date. -/
def isLeap (y : Nat) : Bool := (y % 4 == 0 && y % 100 != 0) || y % 400 == 0

/-- Days in a month of the proleptic Gregorian calendar. -/
def daysInMonth (y m : Nat) : Nat :=
  if m = 2 then (if isLeap y then 29 else 28)
  else if m = 4 ∨ m = 6 ∨ m = 9 ∨ m = 11 then 30
  else 31

/-- Total days in the first m months of year y. -/
def monthsCum (y : Nat) : Nat → Nat
  | 0 => 0
  | m + 1 => monthsCum y m + daysInMonth y (m + 1)

/-- Day of year (timetuple().tm_yday / strftime %j). -/
def dayOfYear (y m d : Nat) : Nat := monthsCum y (m - 1) + d

/-- Validity of a (year, month, day) triple for datetime.date. -/
def validDate (y m d : Nat) : Bool :=
  1 ≤ y && y ≤ 9999 && 1 ≤ m && m ≤ 12 && 1 ≤ d && d ≤ daysInMonth y m

/-- The century shift on line 1031: year += (year < 1900) * 100. -/
def shiftYear (y : Nat) : Nat := if y < 1900 then y + 100 else y

/-- DSSATXFileOutput.__translate_date_str (lines 1025-1032): convert yyyymmdd
to the 5-character yyddd encoding via strftime of the shifted year; inputs
shorter than 8 characters pass through.  A parse failure, an invalid shifted
date, or a shifted year still below 1900 raises ValueError (Python 2's
datetime strftime requires year >= 1900, the limitation the comment on line
1031 cites as the reason for the +100 shift); every raise is modelled as
none. -/
def translate_date_str (s : PyStr) : Option PyStr :=
  if s.length < 8 then some s
  else
    match parseNat (s.take 4), parseNat ((s.drop 4).take 2), parseNat ((s.drop 6).take 2) with
    | some y, some mo, some d =>
      let y2 := shiftYear y
      if validDate y2 mo d then
        if 1900 ≤ y2 then
          some (padZeros 2 (natStr (y2 % 100)) ++ padZeros 3 (natStr (dayOfYear y2 mo d)))
        else none
      else none
    | _, _, _ => none

/-! ### Pedotransfer and soil-water-content adjustment -/

/-- The regression chain of ptransfer (lines 45-92) restricted to the three
hydraulic quantities (slll, unclamped sldul, slsat).  The sksat and slbdm
outputs involve a real logarithm and are not used by any claim, so they are
not modelled. -/
def ptransfer_raw (slcly slsil sloc slcf : ℚ) : ℚ × ℚ × ℚ :=
  let slclyf := slcly / 100
  let slsilf := slsil / 100
  let slsndf := 1 - slclyf - slsilf
  let _slcff := slcf / 100
  let slocf := sloc
  let F18 := slsndf
  let G18 := slclyf
  let H18 := slocf
  let I18 : ℚ := 1
  let W18 := -0.024*F18+0.487*G18+0.006*H18+0.005*F18*H18-0.013*G18*H18+0.068*F18*G18+0.031
  let X18 := W18+0.14*W18-0.02
  let slll := X18
  let Y18 := -0.251*F18+0.195*G18+0.011*H18+0.006*F18*H18-0.027*G18*H18+0.452*F18*G18+0.299
  let AA18 := 0.278*F18+0.034*G18+0.022*H18-0.018*F18*H18-0.027*G18*H18-0.584*F18*G18+0.078
  let Z18 := Y18+(1.283*Y18*Y18-0.374*Y18-0.015)
  let AB18 := AA18+(0.636*AA18-0.107)
  let AC18 := AB18+Z18
  let AD18 := -0.097*F18+0.043
  let AE18 := AC18+AD18
  let AF18 := (1-AE18)*2.65
  let AG18 := AF18*I18
  let AI18 := (1-AG18/2.65)-(1-AF18/2.65)
  let AJ18 := Z18+0.2*AI18
  let sldul := AJ18
  let AH18 := 1-(AG18/2.65)
  let slsat := AH18
  (slll, sldul, slsat)

/-- ptransfer with the final clamp of line 94 applied:
if sldul < slll then sldul = slll + 0.01. -/
def ptransfer_hydro (slcly slsil sloc slcf : ℚ) : ℚ × ℚ × ℚ :=
  let r := ptransfer_raw slcly slsil sloc slcf
  (r.1, if r.2.1 < r.1 then r.1 + 0.01 else r.2.1, r.2.2)

/-- swc_adjustments (lines 99-121).  The Python function returns the numbers
as strings; the numeric content is modelled. -/
def swc_adjustments (sldul slll slsat swc_delta : ℚ) : ℚ × ℚ × ℚ :=
  let slll_min : ℚ := 0.04
  if slll ≤ slll_min then (sldul, slll, slsat)
  else
    let swc := sldul - slll
    let target_swc := swc + swc_delta
    let slll_delta := 0.5 * (slll + target_swc - sldul)
    let slll_delta := if slll - slll_delta < slll_min then slll - slll_min else slll_delta
    let sldul2 := sldul + slll_delta
    let slll2 := slll - slll_delta
    let slsat_sldul_min_offset : ℚ := 0.05
    let slsat2 := if slsat - sldul2 < slsat_sldul_min_offset
                  then sldul2 + slsat_sldul_min_offset else slsat
    (sldul2, slll2, slsat2)

/-! ### Treatment number normalization -/

/-- Line 547: trno is replaced by (int(trno) - 1) % 999 + 1.  Python % with a
positive modulus returns a value in [0, 999), which is Int.emod. -/
def trno_normalize (n : ℤ) : ℤ := (n - 1) % 999 + 1

/-! ### Cultivar/ecotype parameter modifiers -/

/-- First-match lookup in a modifier dict (numeric values). -/
def lookupMod (k : PyStr) : List (PyStr × ℚ) → Option ℚ
  | [] => none
  | (k2, v) :: rest => if k2 = k then some v else lookupMod k rest

/-- The per-coefficient if/elif chain of DSSATXFileOutput.__add_param_mods
(lines 1367-1376) for an ordinary coefficient (the cul_id/eco post-rounding
of line 1379 applies to neither claim input).  The Python code computes on
str(double(...)) round-trips; the exact numeric content is modelled. -/
def apply_param_mod (key : PyStr) (v : ℚ) (mods : List (PyStr × ℚ)) : ℚ :=
  match lookupMod ("offset_".toList ++ key) mods with
  | some o => v + o
  | none =>
    match lookupMod ("scale_".toList ++ key) mods with
    | some sc => v * sc
    | none =>
      match lookupMod ("max_".toList ++ key) mods with
      | some mx => min v mx
      | none =>
        match lookupMod ("min_".toList ++ key) mods with
        | some mn => max v mn
        | none =>
          match lookupMod ("set_".toList ++ key) mods with
          | some sv => sv
          | none => v

/-! ### Fixed-width field formatting (for_str) -/

/-- The vtype argument of for_str: character or real. -/
inductive VType where
  | c : VType
  | r : VType
deriving DecidableEq

/-- The jtfy argument of for_str: left or right justification. -/
inductive Jtfy where
  | l : Jtfy
  | r : Jtfy
deriving DecidableEq

/-- Round to the nearest integer, ties to even (the rounding used when
formatting a double with a fixed number of decimals). -/
def roundHalfEven (x : ℚ) : ℤ :=
  let f := ⌊x⌋
  let r := x - f
  if r < 1/2 then f else if 1/2 < r then f + 1 else if f % 2 = 0 then f else f + 1

/-- Fixed-point decimal formatting of an exact rational with ndec decimals,
as produced by a Python format spec of the shape dot-ndec-f.  (Python formats
the IEEE double nearest to the input; on the exact rationals appearing in the
claims the two agree.) -/
def formatFixed (q : ℚ) (ndec : Nat) : PyStr :=
  let n := roundHalfEven (q * 10 ^ ndec)
  let digits := padZeros (ndec + 1) (natStr n.natAbs)
  let ip := digits.take (digits.length - ndec)
  let fp := digits.drop (digits.length - ndec)
  (if q < 0 then ['-'] else []) ++ ip ++ (if ndec = 0 then [] else '.' :: fp)

/-- Unsigned part of Python float(s): digits with an optional fractional part
(scientific notation is not used by the translator and is not modelled). -/
def parseUnsignedQ (s : PyStr) : Option ℚ :=
  let ip := s.takeWhile Char.isDigit
  let rest := s.dropWhile Char.isDigit
  match rest with
  | [] => if ip = [] then none else some ((digitsVal ip : ℚ))
  | '.' :: fp =>
    if fp.all Char.isDigit ∧ (ip ≠ [] ∨ fp ≠ []) then
      some ((digitsVal ip : ℚ) + (digitsVal fp : ℚ) / 10 ^ fp.length)
    else none
  | _ => none

/-- Python float(s) = numpy double(s) on decimal notation; none on inputs
that raise ValueError. -/
def pyParseQ (s : PyStr) : Option ℚ :=
  match s with
  | '-' :: rest => (parseUnsignedQ rest).map Neg.neg
  | '+' :: rest => parseUnsignedQ rest
  | _ => parseUnsignedQ s

/-- The justification step of for_str (lines 30-35). -/
def justify (var : PyStr) (vwidth : Nat) (jtfy : Jtfy) (zero_pad : Bool) : PyStr :=
  match jtfy with
  | .r => if zero_pad then pyZfill vwidth var else pyRjust vwidth var
  | .l => if zero_pad then var ++ List.replicate (vwidth - var.length) '0' else pyLjust vwidth var

/-- for_str (lines 15-36).  Returns the rendered field together with the flag
recording whether the too-long-real warning was emitted; none models the
exception raised when double(vstr) fails.  (The two raise branches for an
unknown vtype or jtfy are outside the enumerated argument types.) -/
def for_str (vstr : PyStr) (nleading : Nat) (vtype : VType) (vwidth : Nat)
    (jtfy : Jtfy) (ndec : Nat) (zero_pad : Bool) : Option (PyStr × Bool) :=
  let step : Option (PyStr × Bool) :=
    match vtype with
    | .c => some (if vwidth < vstr.length then vstr.take vwidth else vstr, false)
    | .r =>
      match pyParseQ vstr with
      | none => none
      | some q =>
        let var := formatFixed q ndec
        if vwidth < var.length then some (var.take vwidth, true) else some (var, false)
  match step with
  | none => none
  | some (var, warn) =>
    some (List.replicate nleading ' ' ++ justify var vwidth jtfy zero_pad, warn)

/-! ### Composite soil ids -/

/-- Line 431: the composite soil id is the string SL followed by the interned
index zero-filled to 8 digits. -/
def sl_id (n : Nat) : PyStr := "SL".toList ++ pyZfill 8 (natStr n)

/-- Table produced by interning a list of records in order. -/
def build_table (tbl : List JVal) : List JVal → List JVal
  | [] => tbl
  | r :: rs => build_table (set_sec_data r tbl).2 rs

/-- Composite soil ids assigned to a list of soil-modifier records processed
in order against an accumulating table (lines 417-431 executed per sequence). -/
def assign_ids (tbl : List JVal) : List JVal → List PyStr
  | [] => []
  | r :: rs => sl_id (set_sec_data r tbl).1 :: assign_ids (set_sec_data r tbl).2 rs

/-- Composite soil ids for a whole run, starting from the empty table. -/
def composite_ids (recs : List JVal) : List PyStr := assign_ids [] recs

/-! ### The simulation-control renderer and its side effect on records -/

/-- Python dict lookup on the association-list representation. -/
def jlookup (k : PyStr) : List (PyStr × JVal) → Option JVal
  | [] => none
  | (k2, v) :: rest => if k2 = k then some v else jlookup k rest

/-- Python dict item assignment: replace the value at an existing key in
place, otherwise append the new binding. -/
def jset (k : PyStr) (v : JVal) : List (PyStr × JVal) → List (PyStr × JVal)
  | [] => [(k, v)]
  | (k2, v2) :: rest => if k2 = k then (k2, v) :: rest else (k2, v2) :: jset k v rest

/-- __get_obj of a key expected to hold a string, with a default for a
missing key; a non-string value makes the renderer raise downstream
(modelled as none). -/
def getStrDefault (d : List (PyStr × JVal)) (k : PyStr) (dft : PyStr) : Option PyStr :=
  match jlookup k d with
  | none => some dft
  | some (JVal.str s) => some s
  | some _ => none

/-- Lines 1048-1051: the start date is tr_data['sdat'] or, when that is
empty, the date of tr_data['planting'] with default -99.  A non-dict
'planting' value is not modelled (none). -/
def smma_resolve_sdate (tr : List (PyStr × JVal)) : Option PyStr :=
  match getStrDefault tr "sdat".toList [] with
  | none => none
  | some s0 =>
    if s0 = [] then
      match jlookup "planting".toList tr with
      | none => some ("-99".toList)
      | some (JVal.obj sub) => getStrDefault sub "date".toList ("-99".toList)
      | some _ => none
    else
      some s0

/-- The effect of __create_SMMA_str (lines 1034-1085) on the simulation
control record passed to it: the record is returned as it stands after the
GENERAL sub-block has been rendered.  Because __get_obj returns the actual
object, lines 1066-1067 write sdyer and sdday into the record's 'general'
sub-dict in place whenever it is a non-empty dict and the resolved start
date is usable; the remaining sub-blocks only read the record. -/
def smma_general_update (tr : List (PyStr × JVal)) : Option (List (PyStr × JVal)) :=
  match smma_resolve_sdate tr with
  | none => none
  | some s0 =>
    match translate_date_str s0 with
    | none => none
    | some s1 =>
      let sdate := pyLjust 5 s1
      match jlookup "general".toList tr with
      | none => some tr
      | some (JVal.obj []) => some tr
      | some (JVal.obj g) =>
        if pyStrip sdate ≠ "-99".toList ∧ pyStrip sdate ≠ [] then
          let g1 := jset "sdyer".toList (JVal.str (sdate.take 2)) g
          let g2 := jset "sdday".toList (JVal.str ((sdate.drop 2).take 3)) g1
          some (jset "general".toList (JVal.obj g2) tr)
        else
          some tr
      | some _ => none

/-! ### The SM treatment column and the SIMULATION CONTROLS section -/

/-- A soil-modifier record with soil id AA. -/
def recA : JVal := JVal.obj [("soil_id".toList, JVal.str "AA".toList)]

/-- A soil-modifier record with soil id BB. -/
def recB : JVal := JVal.obj [("soil_id".toList, JVal.str "BB".toList)]

/-- A simulation-control record with a start date and a non-empty general
sub-dict, as interned by toXFile. -/
def smcRecord : List (PyStr × JVal) :=
  [("sdat".toList, JVal.str "19950615".toList),
   ("general".toList, JVal.obj [("nyers".toList, JVal.str "31".toList)])]

/-- The same record after the SIMULATION CONTROLS section has been rendered:
sdyer and sdday have been written into its general sub-dict. -/
def smcRecordAfter : List (PyStr × JVal) :=
  [("sdat".toList, JVal.str "19950615".toList),
   ("general".toList, JVal.obj
     [("nyers".toList, JVal.str "31".toList),
      ("sdyer".toList, JVal.str "95".toList),
      ("sdday".toList, JVal.str "166".toList)])]

/-! ## Theorems -/

theorem sec_scan_none_iff (m : JVal) (l : List JVal) :
    sec_scan m l = none ↔ ∀ a ∈ l, a ≠ m := by
  induction l with
  | nil => simp [sec_scan]
  | cons a rest ih =>
    by_cases h : a = m
    · simp [sec_scan, h]
    · simp [sec_scan, h, ih]

theorem sec_scan_append_left (m : JVal) (l₁ l₂ : List JVal) (n : Nat)
    (h : sec_scan m l₁ = some n) : sec_scan m (l₁ ++ l₂) = some n := by
  induction l₁ generalizing n with
  | nil => simp [sec_scan] at h
  | cons a rest ih =>
    by_cases ha : a = m
    · simp [sec_scan, ha] at h ⊢; exact h
    · rw [sec_scan] at h
      rw [List.cons_append, sec_scan]
      simp only [if_neg ha] at h ⊢
      cases hr : sec_scan m rest with
      | none => rw [hr] at h; simp at h
      | some k => rw [ih k hr]; rw [hr] at h; exact h

theorem sec_scan_append_self (m : JVal) (l : List JVal)
    (h : sec_scan m l = none) : sec_scan m (l ++ [m]) = some (l.length + 1) := by
  induction l with
  | nil => simp [sec_scan]
  | cons a rest ih =>
    by_cases ha : a = m
    · rw [sec_scan, if_pos ha] at h; exact absurd h (by simp)
    · rw [sec_scan, if_neg ha] at h
      have hh : sec_scan m rest = none := by
        cases hr : sec_scan m rest with
        | none => rfl
        | some k => rw [hr] at h; simp at h
      rw [List.cons_append, sec_scan, if_neg ha, ih hh]
      simp

theorem sec_scan_of_first (m : JVal) (l : List JVal) (j : Nat) (hj : j < l.length)
    (hget : l.get ⟨j, hj⟩ = m)
    (hfirst : ∀ k (hk : k < l.length), k < j → l.get ⟨k, hk⟩ ≠ m) :
    sec_scan m l = some (j + 1) := by
  induction l generalizing j with
  | nil => simp at hj
  | cons a rest ih =>
    cases j with
    | zero =>
      simp at hget
      simp [sec_scan, hget]
    | succ j' =>
      have ha : a ≠ m := by
        have := hfirst 0 (Nat.succ_pos _) (Nat.succ_pos _)
        simpa using this
      have hj' : j' < rest.length := Nat.lt_of_succ_lt_succ hj
      have hrest : sec_scan m rest = some (j' + 1) := by
        apply ih j' hj'
        · simpa using hget
        · intro k hk hkj
          have := hfirst (k + 1) (Nat.succ_lt_succ hk) (Nat.succ_lt_succ hkj)
          simpa using this
      simp [sec_scan, ha, hrest]

theorem set_sec_data_empty (m : JVal) (arr : List JVal)
    (h : m = JVal.obj [] ∨ m = JVal.arr []) : set_sec_data m arr = (0, arr) := by
  simp only [set_sec_data]
  rw [if_pos h]

theorem set_sec_data_nonempty (m : JVal) (arr : List JVal)
    (h : ¬(m = JVal.obj [] ∨ m = JVal.arr [])) :
    set_sec_data m arr =
      (match sec_scan m arr with
       | some j => (j, arr)
       | none => (arr.length + 1, arr ++ [m])) := by
  simp only [set_sec_data]
  rw [if_neg h]

/-- C1: interning (__set_sec_data) maps the empty dict and the empty list to
sentinel 0 without touching the table; a record deeply equal to an existing
entry gets the 1-based position of the first such entry with the table
unchanged; a new record is appended and gets the new length; and a second
intern of the same record returns the same index and leaves the table
unchanged, so the length grows only on first occurrence. -/
theorem set_sec_data_intern_contract (m : JVal) (arr : List JVal) :
    ((m = JVal.obj [] ∨ m = JVal.arr []) → set_sec_data m arr = (0, arr)) ∧
    ((¬(m = JVal.obj [] ∨ m = JVal.arr []) →
      (∀ (j : Nat) (hj : j < arr.length), arr.get ⟨j, hj⟩ = m →
        (∀ (k : Nat) (hk : k < arr.length), k < j → arr.get ⟨k, hk⟩ ≠ m) →
        set_sec_data m arr = (j + 1, arr)) ∧
      ((∀ a ∈ arr, a ≠ m) → set_sec_data m arr = (arr.length + 1, arr ++ [m]))) ∧
    set_sec_data m (set_sec_data m arr).2 = ((set_sec_data m arr).1, (set_sec_data m arr).2)) := by
  refine ⟨fun h => set_sec_data_empty m arr h, fun h => ⟨?_, ?_⟩, ?_⟩
  · intro j hj hget hfirst
    rw [set_sec_data_nonempty m arr h, sec_scan_of_first m arr j hj hget hfirst]
  · intro hnone
    rw [set_sec_data_nonempty m arr h, (sec_scan_none_iff m arr).mpr hnone]
  · by_cases h : m = JVal.obj [] ∨ m = JVal.arr []
    · rw [set_sec_data_empty m arr h, set_sec_data_empty m arr h]
    · cases hs : sec_scan m arr with
      | some j =>
        have h1 : set_sec_data m arr = (j, arr) := by
          rw [set_sec_data_nonempty m arr h, hs]
        rw [h1, set_sec_data_nonempty m arr h, hs]
      | none =>
        have h1 : set_sec_data m arr = (arr.length + 1, arr ++ [m]) := by
          rw [set_sec_data_nonempty m arr h, hs]
        rw [h1, set_sec_data_nonempty m (arr ++ [m]) h, sec_scan_append_self m arr hs]

theorem set_sec_data_intern_contract_witness :
    set_sec_data (JVal.str ['x']) [JVal.str ['x']] = (1, [JVal.str ['x']]) ∧
    set_sec_data (JVal.obj []) [JVal.str ['x']] = (0, [JVal.str ['x']]) := by
  constructor
  · exact ((set_sec_data_intern_contract (JVal.str ['x']) [JVal.str ['x']]).2.1 (by decide)).1
      0 (by decide) (by decide) (fun k hk h0 => absurd h0 (Nat.not_lt_zero k))
  · exact (set_sec_data_intern_contract (JVal.obj []) [JVal.str ['x']]).1 (Or.inl rfl)

/-- C5 counterexample: the raw treatment number 1999 is written as 1, not as
the 999 stated in the claim. -/
theorem trno_normalize_1999_counterexample :
    trno_normalize 1999 = 1 ∧ trno_normalize 1999 ≠ 999 := by decide

/-- C5 amended: the written treatment number is ((n-1) mod 999)+1, always in
1..999 and congruent to n modulo 999; 1000 maps to 1, 999 maps to 999, and
1999 maps to 1 (not 999). -/
theorem trno_normalize_spec :
    (∀ n : ℤ, trno_normalize n = (n - 1) % 999 + 1 ∧
      (1 ≤ n → 1 ≤ trno_normalize n ∧ trno_normalize n ≤ 999 ∧
        trno_normalize n % 999 = n % 999)) ∧
    trno_normalize 1000 = 1 ∧ trno_normalize 999 = 999 ∧ trno_normalize 1999 = 1 := by
  refine ⟨fun n => ⟨rfl, fun hn => ?_⟩, by decide, by decide, by decide⟩
  unfold trno_normalize
  omega

theorem trno_normalize_spec_witness :
    1 ≤ trno_normalize 1000 ∧ trno_normalize 1000 ≤ 999 := by
  have h := (trno_normalize_spec.1 1000).2 (by norm_num)
  exact ⟨h.1, h.2.1⟩

/-- C7: per coefficient, only the first operator present in the precedence
order offset, scale, max, min, set is applied, the rest are ignored; in
particular p1 = 100 with both offset 10 and scale 2 present yields 110. -/
theorem param_mod_precedence :
    (∀ (key : PyStr) (v : ℚ) (mods : List (PyStr × ℚ)),
      (∀ o, lookupMod ("offset_".toList ++ key) mods = some o →
        apply_param_mod key v mods = v + o) ∧
      (lookupMod ("offset_".toList ++ key) mods = none →
        ∀ sc, lookupMod ("scale_".toList ++ key) mods = some sc →
          apply_param_mod key v mods = v * sc) ∧
      (lookupMod ("offset_".toList ++ key) mods = none →
        lookupMod ("scale_".toList ++ key) mods = none →
        ∀ mx, lookupMod ("max_".toList ++ key) mods = some mx →
          apply_param_mod key v mods = min v mx) ∧
      (lookupMod ("offset_".toList ++ key) mods = none →
        lookupMod ("scale_".toList ++ key) mods = none →
        lookupMod ("max_".toList ++ key) mods = none →
        ∀ mn, lookupMod ("min_".toList ++ key) mods = some mn →
          apply_param_mod key v mods = max v mn) ∧
      (lookupMod ("offset_".toList ++ key) mods = none →
        lookupMod ("scale_".toList ++ key) mods = none →
        lookupMod ("max_".toList ++ key) mods = none →
        lookupMod ("min_".toList ++ key) mods = none →
        ∀ sv, lookupMod ("set_".toList ++ key) mods = some sv →
          apply_param_mod key v mods = sv) ∧
      (lookupMod ("offset_".toList ++ key) mods = none →
        lookupMod ("scale_".toList ++ key) mods = none →
        lookupMod ("max_".toList ++ key) mods = none →
        lookupMod ("min_".toList ++ key) mods = none →
        lookupMod ("set_".toList ++ key) mods = none →
        apply_param_mod key v mods = v)) ∧
    apply_param_mod "p1".toList 100
      [("offset_p1".toList, 10), ("scale_p1".toList, 2)] = 110 := by
  constructor
  · intro key v mods
    refine ⟨?_, ?_, ?_, ?_, ?_, ?_⟩
    · intro o ho
      unfold apply_param_mod
      rw [ho]
    · intro h0 sc hsc
      unfold apply_param_mod
      rw [h0, hsc]
    · intro h0 h1 mx hmx
      unfold apply_param_mod
      rw [h0, h1, hmx]
    · intro h0 h1 h2 mn hmn
      unfold apply_param_mod
      rw [h0, h1, h2, hmn]
    · intro h0 h1 h2 h3 sv hsv
      unfold apply_param_mod
      rw [h0, h1, h2, h3, hsv]
    · intro h0 h1 h2 h3 h4
      unfold apply_param_mod
      rw [h0, h1, h2, h3, h4]
  · have h1 : lookupMod ("offset_".toList ++ "p1".toList)
        [("offset_p1".toList, (10 : ℚ)), ("scale_p1".toList, 2)] = some 10 := by decide
    unfold apply_param_mod
    rw [h1]
    norm_num

theorem param_mod_precedence_witness :
    apply_param_mod "p1".toList 100
      [("offset_p1".toList, 10), ("scale_p1".toList, 2)] = 100 + 10 :=
  (param_mod_precedence.1 "p1".toList 100
    [("offset_p1".toList, 10), ("scale_p1".toList, 2)]).1 10 (by decide)

theorem swc_adjustments_closed (sldul slll slsat delta : ℚ) (h : 0.04 < slll) :
    swc_adjustments sldul slll slsat delta =
      (sldul + min (delta/2) (slll - 0.04), slll - min (delta/2) (slll - 0.04),
       if slsat - (sldul + min (delta/2) (slll - 0.04)) < 0.05
       then sldul + min (delta/2) (slll - 0.04) + 0.05 else slsat) := by
  simp only [swc_adjustments]
  rw [if_neg (not_le.mpr h)]
  have h1 : 0.5 * (slll + (sldul - slll + delta) - sldul) = delta/2 := by ring
  rw [h1]
  by_cases h2 : slll - delta/2 < 0.04
  · rw [if_pos h2]
    have hm : min (delta/2) (slll - 0.04) = slll - 0.04 := min_eq_right (by linarith)
    rw [hm]
  · rw [if_neg h2]
    have hm : min (delta/2) (slll - 0.04) = delta/2 := min_eq_left (by linarith)
    rw [hm]

theorem swc_post_bounds (sldul slll slsat delta : ℚ) (h : 0.04 < slll) :
    0.05 ≤ (swc_adjustments sldul slll slsat delta).2.2 -
      (swc_adjustments sldul slll slsat delta).1 ∧
    0.04 ≤ (swc_adjustments sldul slll slsat delta).2.1 := by
  rw [swc_adjustments_closed sldul slll slsat delta h]
  dsimp only
  constructor
  · split_ifs with h2
    · linarith
    · linarith
  · linarith [min_le_right (delta/2) (slll - 0.04)]

/-- C8: swc_adjustments is the identity when wiltingPoint is at most 0.04;
otherwise it moves d = delta/2 (clamped so the adjusted wilting point never
drops below 0.04) onto fieldCapacity and off wiltingPoint, then raises
saturation to fieldCapacity + 0.05 whenever the gap is below 0.05. -/
theorem swc_adjustments_contract (sldul slll slsat delta : ℚ) :
    (slll ≤ 0.04 → swc_adjustments sldul slll slsat delta = (sldul, slll, slsat)) ∧
    (0.04 < slll →
      swc_adjustments sldul slll slsat delta =
        (sldul + min (delta/2) (slll - 0.04), slll - min (delta/2) (slll - 0.04),
         if slsat - (sldul + min (delta/2) (slll - 0.04)) < 0.05
         then sldul + min (delta/2) (slll - 0.04) + 0.05 else slsat) ∧
      0.04 ≤ slll - min (delta/2) (slll - 0.04) ∧
      0.05 ≤ (swc_adjustments sldul slll slsat delta).2.2 -
        (swc_adjustments sldul slll slsat delta).1) := by
  constructor
  · intro h
    simp only [swc_adjustments]
    rw [if_pos h]
  · intro h
    refine ⟨swc_adjustments_closed sldul slll slsat delta h, ?_,
      (swc_post_bounds sldul slll slsat delta h).1⟩
    linarith [min_le_right (delta/2) (slll - 0.04)]

theorem swc_adjustments_contract_witness :
    0.05 ≤ (swc_adjustments 0.3 0.2 0.5 0.02).2.2 - (swc_adjustments 0.3 0.2 0.5 0.02).1 ∧
    swc_adjustments 0.3 0.03 0.5 0.02 = (0.3, 0.03, 0.5) :=
  ⟨((swc_adjustments_contract 0.3 0.2 0.5 0.02).2 (by norm_num)).2.2,
   (swc_adjustments_contract 0.3 0.03 0.5 0.02).1 (by norm_num)⟩

/-- C4 counterexample: the hydraulic ordering claimed for every produced
layer fails on the code.  A soil-water-content adjustment with delta -0.5 on
(fieldCapacity, wiltingPoint, saturation) = (0.3, 0.1, 0.5) returns wilting
point 0.35 above field capacity 0.05; and the pedotransfer chain at clay
100, silt 0, organic carbon 50, coarse fragments 0 returns saturation below
field capacity (even after the +0.01 clamp fires). -/
theorem hydraulic_ordering_counterexample :
    (swc_adjustments 0.3 0.1 0.5 (-0.5) = (0.05, 0.35, 0.5) ∧
      ¬((swc_adjustments 0.3 0.1 0.5 (-0.5)).2.1 < (swc_adjustments 0.3 0.1 0.5 (-0.5)).1)) ∧
    (ptransfer_hydro 100 0 50 0 = (536/3125, 2269/12500, -94047253/250000000) ∧
      ¬((ptransfer_hydro 100 0 50 0).2.1 < (ptransfer_hydro 100 0 50 0).2.2)) := by
  constructor
  · have h : swc_adjustments 0.3 0.1 0.5 (-0.5) = (0.05, 0.35, 0.5) := by
      norm_num [swc_adjustments]
    refine ⟨h, ?_⟩
    rw [h]
    norm_num
  · have h : ptransfer_hydro 100 0 50 0 = (536/3125, 2269/12500, -94047253/250000000) := by
      norm_num [ptransfer_hydro, ptransfer_raw]
    refine ⟨h, ?_⟩
    rw [h]
    norm_num

/-- C4 amended: after the pedotransfer derivation only the non-strict lower
ordering wiltingPoint less-or-equal fieldCapacity is guaranteed, with the
clamp exact: whenever the raw chain yields fieldCapacity below wiltingPoint
the returned fieldCapacity is wiltingPoint + 0.01; the ordering against
saturation can fail.  After a soil-water-content adjustment (entered when
wiltingPoint exceeds 0.04) the guarantees are saturation at least
fieldCapacity + 0.05 and wiltingPoint at least 0.04, while wiltingPoint
below fieldCapacity can fail. -/
theorem hydraulic_ordering_amended :
    (∀ cly sil oc cf : ℚ,
      (ptransfer_hydro cly sil oc cf).1 ≤ (ptransfer_hydro cly sil oc cf).2.1 ∧
      ((ptransfer_raw cly sil oc cf).2.1 < (ptransfer_raw cly sil oc cf).1 →
        (ptransfer_hydro cly sil oc cf).2.1 = (ptransfer_raw cly sil oc cf).1 + 0.01)) ∧
    (∀ sldul slll slsat delta : ℚ, 0.04 < slll →
      0.05 ≤ (swc_adjustments sldul slll slsat delta).2.2 -
        (swc_adjustments sldul slll slsat delta).1 ∧
      0.04 ≤ (swc_adjustments sldul slll slsat delta).2.1) := by
  constructor
  · intro cly sil oc cf
    simp only [ptransfer_hydro]
    constructor
    · split_ifs with h
      · linarith
      · exact not_lt.mp h
    · intro h
      rw [if_pos h]
  · intro sldul slll slsat delta h
    exact swc_post_bounds sldul slll slsat delta h

theorem hydraulic_ordering_amended_witness :
    (ptransfer_hydro 100 0 50 0).2.1 = (ptransfer_raw 100 0 50 0).1 + 0.01 ∧
    0.04 ≤ (swc_adjustments 0.3 0.2 0.5 0.02).2.1 :=
  ⟨(hydraulic_ordering_amended.1 100 0 50 0).2 (by norm_num [ptransfer_raw]),
   (hydraulic_ordering_amended.2 0.3 0.2 0.5 0.02 (by norm_num)).2⟩

theorem pyRjust_length_of_le (w : Nat) (s : PyStr) (h : s.length ≤ w) :
    (pyRjust w s).length = w := by
  simp only [pyRjust, List.length_append, List.length_replicate]
  omega

theorem pyLjust_length_of_le (w : Nat) (s : PyStr) (h : s.length ≤ w) :
    (pyLjust w s).length = w := by
  simp only [pyLjust, List.length_append, List.length_replicate]
  omega

theorem padZeros_length_of_le (w : Nat) (s : PyStr) (h : s.length ≤ w) :
    (padZeros w s).length = w := by
  simp only [padZeros, List.length_append, List.length_replicate]
  omega

theorem pyZfill_length_of_le (w : Nat) (s : PyStr) (h : s.length ≤ w) :
    (pyZfill w s).length = w := by
  unfold pyZfill
  split_ifs with h1
  · omega
  · cases s with
    | nil => simp
    | cons c rest =>
      dsimp only
      split_ifs with h2
      · simp only [List.length_cons, List.length_append, List.length_replicate] at h h1 ⊢
        omega
      · exact padZeros_length_of_le w (c :: rest) h

theorem justify_length_of_le (var : PyStr) (vwidth : Nat) (jtfy : Jtfy) (zero_pad : Bool)
    (h : var.length ≤ vwidth) : (justify var vwidth jtfy zero_pad).length = vwidth := by
  cases jtfy with
  | r =>
    unfold justify
    split_ifs with hz
    · exact pyZfill_length_of_le vwidth var h
    · exact pyRjust_length_of_le vwidth var h
  | l =>
    unfold justify
    split_ifs with hz
    · simp only [List.length_append, List.length_replicate]
      omega
    · exact pyLjust_length_of_le vwidth var h

/-- C9: for_str always returns a string of exactly width plus leading-space
characters; character values longer than the width are truncated with no
warning; real values are truncated with a warning exactly when the fixed
decimal rendering exceeds the width; the warning is raised only on that real
overflow path. -/
theorem for_str_exact_width (vstr : PyStr) (nleading : Nat) (vtype : VType) (vwidth : Nat)
    (jtfy : Jtfy) (ndec : Nat) (zero_pad : Bool) (out : PyStr) (warn : Bool)
    (h : for_str vstr nleading vtype vwidth jtfy ndec zero_pad = some (out, warn)) :
    out.length = nleading + vwidth ∧
    (vtype = VType.c → warn = false ∧ (vwidth ≤ vstr.length →
      out = List.replicate nleading ' ' ++ justify (vstr.take vwidth) vwidth jtfy zero_pad)) ∧
    (vtype = VType.r → ∃ q, pyParseQ vstr = some q ∧
      (warn = true ↔ vwidth < (formatFixed q ndec).length)) := by
  cases vtype with
  | c =>
    simp only [for_str] at h
    have hp := Option.some.inj h
    injection hp with hout hwarn
    subst hout hwarn
    refine ⟨?_, fun _ => ⟨rfl, fun htr => ?_⟩, fun hc => VType.noConfusion hc⟩
    · rw [List.length_append, List.length_replicate,
        justify_length_of_le _ vwidth jtfy zero_pad ?_]
      split_ifs with h1
      · rw [List.length_take]; omega
      · omega
    · congr 1
      split_ifs with h1
      · rfl
      · rw [List.take_of_length_le (by omega)]
  | r =>
    simp only [for_str] at h
    cases hq : pyParseQ vstr with
    | none => rw [hq] at h; simp at h
    | some q =>
      rw [hq] at h
      dsimp only at h
      by_cases hw : vwidth < (formatFixed q ndec).length
      · rw [if_pos hw] at h
        have hp := Option.some.inj h
        injection hp with hout hwarn
        subst hout hwarn
        refine ⟨?_, fun hc => VType.noConfusion hc, fun _ => ⟨q, rfl, by simp [hw]⟩⟩
        rw [List.length_append, List.length_replicate,
          justify_length_of_le _ vwidth jtfy zero_pad (by rw [List.length_take]; omega)]
      · rw [if_neg hw] at h
        have hp := Option.some.inj h
        injection hp with hout hwarn
        subst hout hwarn
        refine ⟨?_, fun hc => VType.noConfusion hc, fun _ => ⟨q, rfl, by simp [hw]⟩⟩
        rw [List.length_append, List.length_replicate,
          justify_length_of_le _ vwidth jtfy zero_pad (by omega)]

theorem for_str_exact_width_witness :
    (" hell".toList).length = 1 + 4 := by
  have h : for_str "hello".toList 1 VType.c 4 Jtfy.r 0 false =
      some (" hell".toList, false) := by decide
  exact (for_str_exact_width "hello".toList 1 VType.c 4 Jtfy.r 0 false
    (" hell".toList) false h).1

theorem isLeap_add_100 (y : Nat) (h : y % 100 ≠ 0) : isLeap (y + 100) = isLeap y := by
  unfold isLeap
  have h4 : (y + 100) % 4 = y % 4 := by omega
  have h100 : (y + 100) % 100 = y % 100 := by omega
  have h400a : y % 400 ≠ 0 := by omega
  have h400b : (y + 100) % 400 ≠ 0 := by omega
  rw [h4, h100]
  have e1 : ((y + 100) % 400 == 0) = false := by simp [h400b]
  have e2 : (y % 400 == 0) = false := by simp [h400a]
  rw [e1, e2]

theorem daysInMonth_congr (y1 y2 : Nat) (h : isLeap y1 = isLeap y2) (m : Nat) :
    daysInMonth y1 m = daysInMonth y2 m := by
  unfold daysInMonth
  rw [h]

theorem monthsCum_congr (y1 y2 : Nat) (h : isLeap y1 = isLeap y2) (m : Nat) :
    monthsCum y1 m = monthsCum y2 m := by
  induction m with
  | zero => rfl
  | succ m ih =>
    unfold monthsCum
    rw [ih, daysInMonth_congr y1 y2 h]

theorem dayOfYear_congr (y1 y2 : Nat) (h : isLeap y1 = isLeap y2) (m d : Nat) :
    dayOfYear y1 m d = dayOfYear y2 m d := by
  unfold dayOfYear
  rw [monthsCum_congr y1 y2 h]

/-- C6 counterexample: the encoder does not map every 8-character yyyymmdd
string to a 5-character YYDDD encoding.  On 17500615 the +100 shift yields
1850, still below the year 1900 floor of Python 2's datetime strftime, so
the code raises ValueError (modelled as none) instead of returning the
encoding 50166 the claim promises. -/
theorem translate_date_str_counterexample :
    translate_date_str "17500615".toList = none ∧
    padZeros 2 (natStr (1750 % 100)) ++ padZeros 3 (natStr (dayOfYear 1750 6 15)) =
      "50166".toList ∧
    translate_date_str "17500615".toList ≠
      some (padZeros 2 (natStr (1750 % 100)) ++ padZeros 3 (natStr (dayOfYear 1750 6 15))) := by
  refine ⟨by decide, by decide, by decide⟩

/-- C6 amended: inputs shorter than 8 characters pass through unchanged.
For a yyyymmdd input whose shifted date is valid and whose shifted year
reaches the year 1900 strftime floor -- that is, original years 1800 and
above -- the encoder returns the original year mod 100 (zero-padded to 2)
followed by the correct Gregorian day-of-year of the original date
(zero-padded to 3): in that whole range the +100 shift changes neither the
printed 2-digit year nor the leap status, hence not the day-of-year (in
particular 19950615 encodes to 95166 and a year-1875 date gets prefix 75
with the correct day-of-year).  For original years below 1800 the shifted
year is still below 1900 and the encoder raises instead of returning an
encoding. -/
theorem translate_date_str_legacy_spec :
    (∀ s : PyStr, s.length < 8 → translate_date_str s = some s) ∧
    (∀ (s : PyStr) (y mo d : Nat),
      8 ≤ s.length →
      parseNat (s.take 4) = some y →
      parseNat ((s.drop 4).take 2) = some mo →
      parseNat ((s.drop 6).take 2) = some d →
      validDate (shiftYear y) mo d = true →
      (1900 ≤ shiftYear y →
        translate_date_str s =
          some (padZeros 2 (natStr (y % 100)) ++ padZeros 3 (natStr (dayOfYear y mo d)))) ∧
      (shiftYear y < 1900 → translate_date_str s = none)) := by
  constructor
  · intro s h
    unfold translate_date_str
    rw [if_pos h]
  · intro s y mo d h8 hy hmo hd hv
    constructor
    · intro h1900
      unfold translate_date_str
      rw [if_neg (not_lt.mpr h8), hy, hmo, hd]
      dsimp only
      rw [if_pos hv, if_pos h1900]
      have hmod : shiftYear y % 100 = y % 100 := by
        unfold shiftYear
        split_ifs with hlt
        · omega
        · rfl
      have hleap : isLeap (shiftYear y) = isLeap y := by
        by_cases hlt : y < 1900
        · have hy2 : shiftYear y = y + 100 := by
            unfold shiftYear
            rw [if_pos hlt]
          rw [hy2] at h1900 ⊢
          by_cases hc : y % 100 = 0
          · have h1800 : y = 1800 := by omega
            subst h1800
            decide
          · exact isLeap_add_100 y hc
        · have hy2 : shiftYear y = y := by
            unfold shiftYear
            rw [if_neg hlt]
          rw [hy2]
      rw [hmod, dayOfYear_congr _ _ hleap mo d]
    · intro h1900
      unfold translate_date_str
      rw [if_neg (not_lt.mpr h8), hy, hmo, hd]
      dsimp only
      rw [if_pos hv, if_neg (not_le.mpr h1900)]

theorem translate_date_str_legacy_spec_witness :
    translate_date_str "18750615".toList =
      some (padZeros 2 (natStr (1875 % 100)) ++ padZeros 3 (natStr (dayOfYear 1875 6 15))) ∧
    translate_date_str "16000301".toList = none ∧
    translate_date_str "190".toList = some "190".toList := by
  have h1875 := translate_date_str_legacy_spec.2 "18750615".toList 1875 6 15
    (by decide) (by decide) (by decide) (by decide) (by decide)
  have h1600 := translate_date_str_legacy_spec.2 "16000301".toList 1600 3 1
    (by decide) (by decide) (by decide) (by decide) (by decide)
  exact ⟨h1875.1 (by decide), h1600.2 (by decide),
    translate_date_str_legacy_spec.1 "190".toList (by decide)⟩

theorem set_sec_data_snd_cases (m : JVal) (tbl : List JVal) :
    (set_sec_data m tbl).2 = tbl ∨ (set_sec_data m tbl).2 = tbl ++ [m] := by
  by_cases h : m = JVal.obj [] ∨ m = JVal.arr []
  · left
    rw [set_sec_data_empty m tbl h]
  · rw [set_sec_data_nonempty m tbl h]
    cases hs : sec_scan m tbl with
    | some j => left; rfl
    | none => right; rfl

theorem build_table_cons (tbl : List JVal) (r : JVal) (rs : List JVal) :
    build_table tbl (r :: rs) = build_table (set_sec_data r tbl).2 rs := rfl

theorem build_table_append (tbl : List JVal) (xs ys : List JVal) :
    build_table tbl (xs ++ ys) = build_table (build_table tbl xs) ys := by
  induction xs generalizing tbl with
  | nil => rfl
  | cons r rs ih => rw [List.cons_append, build_table_cons, build_table_cons, ih]

theorem build_table_extends (tbl : List JVal) (rs : List JVal) :
    ∃ ext, build_table tbl rs = tbl ++ ext := by
  induction rs generalizing tbl with
  | nil => exact ⟨[], by simp [build_table]⟩
  | cons r rs ih =>
    obtain ⟨e2, he2⟩ := ih (set_sec_data r tbl).2
    rcases set_sec_data_snd_cases r tbl with hc | hc
    · exact ⟨e2, by rw [build_table_cons, he2, hc]⟩
    · exact ⟨[r] ++ e2, by rw [build_table_cons, he2, hc, List.append_assoc]⟩

theorem sec_scan_after_set (m : JVal) (tbl : List JVal)
    (h : ¬(m = JVal.obj [] ∨ m = JVal.arr [])) :
    sec_scan m (set_sec_data m tbl).2 = some (set_sec_data m tbl).1 := by
  rw [set_sec_data_nonempty m tbl h]
  cases hs : sec_scan m tbl with
  | some j => exact hs
  | none => exact sec_scan_append_self m tbl hs

theorem set_sec_data_fst_stable (m : JVal) (tbl ext : List JVal)
    (h : ¬(m = JVal.obj [] ∨ m = JVal.arr [])) :
    (set_sec_data m ((set_sec_data m tbl).2 ++ ext)).1 = (set_sec_data m tbl).1 := by
  rw [set_sec_data_nonempty m _ h,
    sec_scan_append_left m (set_sec_data m tbl).2 ext _ (sec_scan_after_set m tbl h)]

theorem assign_ids_length (tbl : List JVal) (recs : List JVal) :
    (assign_ids tbl recs).length = recs.length := by
  induction recs generalizing tbl with
  | nil => rfl
  | cons r rs ih => simp [assign_ids, ih]

theorem assign_ids_get (tbl : List JVal) (recs : List JVal) (i : Nat) (hi : i < recs.length) :
    (assign_ids tbl recs).get? i =
      some (sl_id (set_sec_data (recs.get ⟨i, hi⟩) (build_table tbl (recs.take i))).1) := by
  induction recs generalizing tbl i with
  | nil => simp at hi
  | cons r rs ih =>
    cases i with
    | zero => simp [assign_ids, build_table]
    | succ i2 =>
      have hi2 : i2 < rs.length := Nat.lt_of_succ_lt_succ hi
      rw [assign_ids, List.get?_cons_succ, ih (set_sec_data r tbl).2 i2 hi2]
      rfl

theorem mem_build_table (tbl : List JVal) (recs : List JVal) (a : JVal)
    (ha : a ∈ build_table tbl recs) : a ∈ tbl ∨ a ∈ recs := by
  induction recs generalizing tbl with
  | nil => exact Or.inl ha
  | cons r rs ih =>
    rcases ih (set_sec_data r tbl).2 ha with h1 | h2
    · rcases set_sec_data_snd_cases r tbl with hc | hc
      · rw [hc] at h1
        exact Or.inl h1
      · rw [hc] at h1
        rcases List.mem_append.mp h1 with h3 | h3
        · exact Or.inl h3
        · right
          simp at h3
          simp [h3]
    · exact Or.inr (List.mem_cons_of_mem r h2)

theorem composite_ids_pure_le (recs : List JVal) (i j : Nat) (hi : i < recs.length)
    (hj : j < recs.length) (hij : i ≤ j)
    (heq : recs.get ⟨i, hi⟩ = recs.get ⟨j, hj⟩)
    (hne : ¬(recs.get ⟨i, hi⟩ = JVal.obj [] ∨ recs.get ⟨i, hi⟩ = JVal.arr [])) :
    (composite_ids recs).get? i = (composite_ids recs).get? j := by
  rcases Nat.lt_or_ge j (i + 1) with hle | hlt
  · have : i = j := by omega
    subst this
    rfl
  · unfold composite_ids
    rw [assign_ids_get [] recs i hi, assign_ids_get [] recs j hj]
    have hTj : ∃ ext, build_table [] (recs.take j) =
        (set_sec_data (recs.get ⟨i, hi⟩) (build_table [] (recs.take i))).2 ++ ext := by
      have hji : (i+1) + (j - (i+1)) = j := by omega
      have hsplit : recs.take j = recs.take (i+1) ++ (recs.drop (i+1)).take (j - (i+1)) := by
        conv_lhs => rw [← hji]
        rw [List.take_add]
      have htake1 : recs.take (i+1) = recs.take i ++ [recs.get ⟨i, hi⟩] := by
        rw [List.take_succ, List.getElem?_eq_getElem hi]
        simp
      obtain ⟨ext, hext⟩ := build_table_extends
        ((set_sec_data (recs.get ⟨i, hi⟩) (build_table [] (recs.take i))).2)
        ((recs.drop (i+1)).take (j - (i+1)))
      refine ⟨ext, ?_⟩
      rw [hsplit, build_table_append, htake1, build_table_append]
      exact hext
    obtain ⟨ext, hext⟩ := hTj
    rw [← heq, hext, set_sec_data_fst_stable _ _ ext hne]

theorem composite_ids_fresh (recs : List JVal) (i : Nat) (hi : i < recs.length)
    (hne : ¬(recs.get ⟨i, hi⟩ = JVal.obj [] ∨ recs.get ⟨i, hi⟩ = JVal.arr []))
    (hfresh : ∀ (k : Nat) (hk : k < recs.length), k < i →
      recs.get ⟨k, hk⟩ ≠ recs.get ⟨i, hi⟩) :
    (composite_ids recs).get? i =
      some (sl_id ((build_table [] (recs.take i)).length + 1)) := by
  unfold composite_ids
  rw [assign_ids_get [] recs i hi]
  have hscan : sec_scan (recs.get ⟨i, hi⟩) (build_table [] (recs.take i)) = none := by
    rw [sec_scan_none_iff]
    intro a ha
    rcases mem_build_table [] (recs.take i) a ha with h0 | h1
    · simp at h0
    · obtain ⟨⟨k, hk⟩, hak⟩ := List.mem_iff_get.mp h1
      have hki : k < i := by
        have hk2 := hk
        rw [List.length_take] at hk2
        omega
      have hklen : k < recs.length := lt_trans hki hi
      have hkk : (recs.take i).get ⟨k, hk⟩ = recs.get ⟨k, hklen⟩ := by
        simp [List.get_eq_getElem, List.getElem_take']
      rw [hkk] at hak
      rw [← hak]
      exact hfresh k hklen hki
  rw [set_sec_data_nonempty _ _ hne, hscan]

/-- C3: the composite soil id assigned to a soil-modifier record is a pure
function of the record: two equal records anywhere in the run receive the
same id regardless of what was interned in between; the first record gets
SL00000001; and a record not seen before gets the id numbered one past the
current number of distinct records. -/
theorem composite_soil_id_spec (recs : List JVal) :
    (composite_ids recs).length = recs.length ∧
    (∀ (i j : Nat) (hi : i < recs.length) (hj : j < recs.length),
      recs.get ⟨i, hi⟩ = recs.get ⟨j, hj⟩ →
      ¬(recs.get ⟨i, hi⟩ = JVal.obj [] ∨ recs.get ⟨i, hi⟩ = JVal.arr []) →
      (composite_ids recs).get? i = (composite_ids recs).get? j) ∧
    (∀ (r : JVal) (rs : List JVal), recs = r :: rs →
      ¬(r = JVal.obj [] ∨ r = JVal.arr []) →
      (composite_ids recs).get? 0 = some ("SL00000001".toList)) ∧
    (∀ (i : Nat) (hi : i < recs.length),
      ¬(recs.get ⟨i, hi⟩ = JVal.obj [] ∨ recs.get ⟨i, hi⟩ = JVal.arr []) →
      (∀ (k : Nat) (hk : k < recs.length), k < i →
        recs.get ⟨k, hk⟩ ≠ recs.get ⟨i, hi⟩) →
      (composite_ids recs).get? i =
        some (sl_id ((build_table [] (recs.take i)).length + 1))) := by
  refine ⟨assign_ids_length [] recs, ?_, ?_, ?_⟩
  · intro i j hi hj heq hne
    rcases Nat.le_total i j with hij | hij
    · exact composite_ids_pure_le recs i j hi hj hij heq hne
    · exact (composite_ids_pure_le recs j i hj hi hij heq.symm (by rw [← heq]; exact hne)).symm
  · intro r rs hrec hne
    subst hrec
    have h0 : (0 : Nat) < (r :: rs).length := Nat.succ_pos _
    have hf := composite_ids_fresh (r :: rs) 0 h0 hne
      (fun k hk hk0 => absurd hk0 (Nat.not_lt_zero k))
    rw [hf]
    show some (sl_id 1) = some ("SL00000001".toList)
    decide
  · intro i hi hne hfresh
    exact composite_ids_fresh recs i hi hne hfresh

theorem composite_soil_id_spec_witness :
    (composite_ids [recA, recB, recA]).get? 0 = (composite_ids [recA, recB, recA]).get? 2 ∧
    (composite_ids [recA, recB, recA]).get? 0 = some ("SL00000001".toList) :=
  ⟨(composite_soil_id_spec [recA, recB, recA]).2.1 0 2 (by decide) (by decide)
      (by decide) (by decide),
   (composite_soil_id_spec [recA, recB, recA]).2.2.1 recA [recB, recA] rfl (by decide)⟩

/-- C2 counterexample: interned records are not read-only during rendering.
The simulation-control record smcRecord (a start date plus a non-empty
general sub-dict) interns at index 1, and rendering the SIMULATION CONTROLS
section writes sdyer = 95 and sdday = 166 into its general sub-dict in
place, so after rendering the record differs from the value it had at the
moment it was interned. -/
theorem smma_render_mutation_counterexample :
    set_sec_data (JVal.obj smcRecord) [] = (1, [JVal.obj smcRecord]) ∧
    smma_general_update smcRecord = some smcRecordAfter ∧
    smcRecordAfter ≠ smcRecord := by
  refine ⟨by decide, by decide, by decide⟩

/-- C2 amended: rendering is not mutation-free.  The SIMULATION CONTROLS
renderer leaves a simulation-control record unchanged when its general entry
is absent or the empty dict, or when the resolved start date is unusable;
but when the general entry is a non-empty dict and the start date is usable
it writes the derived sdyer and sdday fields into that sub-dict in place
(the planting renderer similarly rescales pldp in place). -/
theorem smma_general_render_effect (tr : List (PyStr × JVal)) (s0 s1 : PyStr)
    (h0 : smma_resolve_sdate tr = some s0) (h1 : translate_date_str s0 = some s1) :
    ((jlookup "general".toList tr = none ∨ jlookup "general".toList tr = some (JVal.obj [])) →
      smma_general_update tr = some tr) ∧
    (∀ g, jlookup "general".toList tr = some (JVal.obj g) →
      ¬(pyStrip (pyLjust 5 s1) ≠ "-99".toList ∧ pyStrip (pyLjust 5 s1) ≠ []) →
      smma_general_update tr = some tr) ∧
    (∀ g, g ≠ [] → jlookup "general".toList tr = some (JVal.obj g) →
      pyStrip (pyLjust 5 s1) ≠ "-99".toList → pyStrip (pyLjust 5 s1) ≠ [] →
      smma_general_update tr = some (jset "general".toList
        (JVal.obj (jset "sdday".toList (JVal.str (((pyLjust 5 s1).drop 2).take 3))
          (jset "sdyer".toList (JVal.str ((pyLjust 5 s1).take 2)) g))) tr)) := by
  refine ⟨?_, ?_, ?_⟩
  · intro hg
    rcases hg with hg | hg
    · unfold smma_general_update
      rw [h0]
      dsimp only
      rw [h1]
      dsimp only
      rw [hg]
    · unfold smma_general_update
      rw [h0]
      dsimp only
      rw [h1]
      dsimp only
      rw [hg]
  · intro g hg hc
    cases g with
    | nil =>
      unfold smma_general_update
      rw [h0]
      dsimp only
      rw [h1]
      dsimp only
      rw [hg]
    | cons p ps =>
      unfold smma_general_update
      rw [h0]
      dsimp only
      rw [h1]
      dsimp only
      rw [hg]
      dsimp only
      rw [if_neg hc]
  · intro g hgnil hg hc1 hc2
    cases g with
    | nil => exact absurd rfl hgnil
    | cons p ps =>
      unfold smma_general_update
      rw [h0]
      dsimp only
      rw [h1]
      dsimp only
      rw [hg]
      dsimp only
      rw [if_pos ⟨hc1, hc2⟩]

theorem smma_general_render_effect_witness :
    smma_general_update [("sdat".toList, JVal.str "19950615".toList)] =
      some [("sdat".toList, JVal.str "19950615".toList)] :=
  (smma_general_render_effect [("sdat".toList, JVal.str "19950615".toList)]
    "19950615".toList "95166".toList (by decide) (by decide)).1 (Or.inl (by decide))
